import Mathlib

/-!
# `Sources/Foundation/GCD.h` under the C preprocessor

The repository is one header, `GCD.h`: seven `//` comment lines, an include
guard (`#ifndef GCD_h` / `#define GCD_h` / `#endif`) and a block comment.
Its only behaviour is what the C preprocessor does with it, so the
development has three parts:

* `GCD_h_text`: the text of the header, line by line;
* the translation phases the header exercises: line splicing (phase 2),
  decomposition into preprocessing tokens with comments dropped (phase 3),
  and directive execution over a macro environment (phase 4);
* the theorems about including the header once and twice.

Phase-4 constructs the header does not use (`#include`, `#if` expressions,
function-like macro definitions, ...) make `preprocess` fail with `none`
when they are reached in an active group; nothing is silently skipped.
-/

namespace GCD

/-! ## The header -/

/-- The 22 lines of `Sources/Foundation/GCD.h`; the last one has no
terminating newline. -/
def GCD_h_text : List String :=
  [ "//"
  , "//  GCD.h"
  , "//  Foundation"
  , "//"
  , "//  Created by JustinLau on 2021/3/3."
  , "//  Copyright © 2021 Swift. All rights reserved."
  , "//"
  , ""
  , "#ifndef GCD_h"
  , "#define GCD_h"
  , ""
  , "/*"
  , " DispatchWorkItem"
  , " "
  , " The work you want to perform, encapsulated in a way that lets you attach a completion handle or execution dependencies."
  , " "
  , " GCD 里面, 对于任务的封装是有点问题的. 裸的 Block. 如果有一个 Item 可以将这个 Block 封装起来, 那么调度函数里面, 就可以通过这个 Item 进行调度了. 例如, priority, dependecy 等信息."
  , " "
  , " "
  , " */"
  , ""
  , "#endif /* GCD_h */" ]

/-- Characters of a file given by its lines: a newline between two
consecutive lines, none after the last. -/
def joinLines : List String → List Char
  | [] => []
  | [l] => l.data
  | l :: rest => l.data ++ '\n' :: joinLines rest

/-- The header as the character sequence the preprocessor reads. -/
def GCD_h_source : List Char := joinLines GCD_h_text

/-! ## Phase 2: line splicing -/

/-- The backslash character. -/
def backslash : Char := Char.ofNat 92

/-- The double-quote character. -/
def dquote : Char := Char.ofNat 34

/-- The single-quote character. -/
def squote : Char := Char.ofNat 39

/-- Delete every backslash that is immediately followed by a newline,
together with that newline. -/
def spliceLines : List Char → List Char
  | [] => []
  | [c] => [c]
  | c :: d :: rest =>
    if c = backslash ∧ d = '\n' then spliceLines rest else c :: spliceLines (d :: rest)

/-! ## Phase 3: preprocessing tokens -/

/-- Preprocessing tokens. Punctuators are kept one character at a time. -/
inductive PPToken where
  | ident (s : String)
  | number (s : String)
  | literal (s : String)
  | punct (c : Char)
  deriving DecidableEq, Repr

/-- Output of the lexer: a token, or the end of a logical line. -/
inductive Item where
  | tok (t : PPToken)
  | nl
  deriving DecidableEq, Repr

/-- Lexer states. Accumulators hold the characters read so far, newest
first. -/
inductive LexMode where
  | code
  | slash
  | lineComment
  | blockComment
  | blockStar
  | word (isNum : Bool) (acc : List Char)
  | lit (q : Char) (acc : List Char)
  | litEsc (q : Char) (acc : List Char)
  deriving DecidableEq, Repr

/-- Horizontal white space. -/
def isBlank (c : Char) : Bool :=
  c = ' ' || c = '\t' || c = '\r' || c = Char.ofNat 11 || c = Char.ofNat 12

/-- First character of an identifier. -/
def isIdentStart (c : Char) : Bool := c.isAlpha || c = '_'

/-- Later character of an identifier. -/
def isIdentRest (c : Char) : Bool := isIdentStart c || c.isDigit

/-- Whether `c` continues a pp-number whose last character was `last`. -/
def isNumberRest (last c : Char) : Bool :=
  isIdentRest c || c = '.' ||
    ((c = '+' || c = '-') && (last = 'e' || last = 'E' || last = 'p' || last = 'P'))

/-- The token a finished word stands for. -/
def wordToken (isNum : Bool) (acc : List Char) : PPToken :=
  if isNum then .number (String.mk acc.reverse) else .ident (String.mk acc.reverse)

/-- Reading `c` when no token is in progress: the next state and the items
completed by `c`. -/
def startTok (c : Char) : LexMode × List Item :=
  if c = '\n' then (.code, [.nl])
  else if isBlank c then (.code, [])
  else if c = '/' then (.slash, [])
  else if c = dquote || c = squote then (.lit c [c], [])
  else if isIdentStart c then (.word false [c], [])
  else if c.isDigit then (.word true [c], [])
  else (.code, [.tok (.punct c)])

/-- Prefix a successful lexing result with the items `xs`. -/
def emit (xs : List Item) (r : Option (List Item)) : Option (List Item) :=
  r.map (xs ++ ·)

/-- What is left to emit when the input ends in state `m`; an unterminated
block comment or literal is an error. -/
def atEnd : LexMode → Option (List Item)
  | .code => some []
  | .slash => some [.tok (.punct '/')]
  | .lineComment => some []
  | .blockComment => none
  | .blockStar => none
  | .word isNum acc => some [.tok (wordToken isNum acc)]
  | .lit _ _ => none
  | .litEsc _ _ => none

/-- The lexer: comments are dropped (they separate tokens like white space),
newlines are kept as `Item.nl`. -/
def lexFrom : LexMode → List Char → Option (List Item)
  | m, [] => atEnd m
  | m, c :: cs =>
    match m with
    | .code => emit (startTok c).2 (lexFrom (startTok c).1 cs)
    | .slash =>
      if c = '/' then lexFrom .lineComment cs
      else if c = '*' then lexFrom .blockComment cs
      else emit (.tok (.punct '/') :: (startTok c).2) (lexFrom (startTok c).1 cs)
    | .lineComment =>
      if c = '\n' then emit [.nl] (lexFrom .code cs) else lexFrom .lineComment cs
    | .blockComment =>
      if c = '*' then lexFrom .blockStar cs else lexFrom .blockComment cs
    | .blockStar =>
      if c = '/' then lexFrom .code cs
      else if c = '*' then lexFrom .blockStar cs
      else lexFrom .blockComment cs
    | .word isNum acc =>
      if (if isNum then isNumberRest (acc.headD ' ') c else isIdentRest c) then
        lexFrom (.word isNum (c :: acc)) cs
      else emit (.tok (wordToken isNum acc) :: (startTok c).2) (lexFrom (startTok c).1 cs)
    | .lit q acc =>
      if c = '\n' then none
      else if c = backslash then lexFrom (.litEsc q (c :: acc)) cs
      else if c = q then
        emit [.tok (.literal (String.mk (c :: acc).reverse))] (lexFrom .code cs)
      else lexFrom (.lit q (c :: acc)) cs
    | .litEsc q acc =>
      if c = '\n' then none else lexFrom (.lit q (c :: acc)) cs

/-- Cut the item stream into logical lines; `cur` is the line in progress,
newest token first. -/
def splitItems : List Item → List PPToken → List (List PPToken)
  | [], cur => [cur.reverse]
  | .nl :: rest, cur => cur.reverse :: splitItems rest []
  | .tok t :: rest, cur => splitItems rest (t :: cur)

/-- A logical line as phase 4 sees it. -/
inductive Line where
  | text (toks : List PPToken)
  | directive (name : String) (args : List PPToken)
  | null
  | nonDirective (toks : List PPToken)
  deriving DecidableEq, Repr

/-- A line whose first token is `#` is a directive line, named by the
identifier that follows; any other line is text. -/
def classify : List PPToken → Line
  | .punct c :: rest =>
    if c = '#' then
      match rest with
      | [] => .null
      | .ident n :: args => .directive n args
      | _ => .nonDirective rest
    else .text (.punct c :: rest)
  | toks => .text toks

/-- Phases 2 and 3 together: the logical lines of a source file. -/
def parseFile (src : List Char) : Option (List Line) :=
  (lexFrom .code (spliceLines src)).map fun items => (splitItems items []).map classify

/-! ## Phase 4: directives and the macro environment -/

/-- A macro definition: the parameter names of a function-like macro
(`none` for an object-like one) and the replacement list. -/
structure MacroDef where
  params : Option (List String)
  body : List PPToken
  deriving DecidableEq, Repr

/-- A macro environment: the definition, if any, of every identifier. -/
abbrev MacroEnv := String → Option MacroDef

/-- The environment after `#define name` with definition `m`. -/
def MacroEnv.define (env : MacroEnv) (name : String) (m : MacroDef) : MacroEnv :=
  fun n => if n = name then some m else env n

/-- The environment after `#undef name`. -/
def MacroEnv.undef (env : MacroEnv) (name : String) : MacroEnv :=
  fun n => if n = name then none else env n

/-- One open `#if`-section. `active`: the group being read is processed;
`parent`: the enclosing group is processed; `taken`: a group of this section
has already been selected; `seenElse`: its `#else` has been read. -/
structure Cond where
  active : Bool
  parent : Bool
  taken : Bool
  seenElse : Bool
  deriving DecidableEq, Repr

/-- State of phase 4: macro environment, tokens emitted so far, and the open
`#if`-sections, innermost first. -/
structure PPState where
  env : MacroEnv
  out : List PPToken
  stack : List Cond

/-- Whether the line being read belongs to a processed group. -/
def PPState.isActive (st : PPState) : Bool :=
  match st.stack with
  | [] => true
  | c :: _ => c.active

/-- Open the if-section of `#ifdef` / `#ifndef`: `wantDefined` is `true` for
`#ifdef`. In a skipped group only the nesting is recorded. -/
def openIfdef (wantDefined : Bool) (st : PPState) (args : List PPToken) : Option PPState :=
  if st.isActive then
    match args with
    | [.ident n] =>
      let sel := ((st.env n).isSome == wantDefined)
      some { st with stack := ⟨sel, true, sel, false⟩ :: st.stack }
    | _ => none
  else some { st with stack := ⟨false, false, false, false⟩ :: st.stack }

/-- Execute one directive. The conditional directives are followed in skipped
groups too, by name only, to keep track of nesting; every other directive is
ignored there. In a processed group `#define` of an object-like macro and
`#undef` update the environment, and anything else is unsupported. A
replacement list that starts with `(` is refused as well: white space is not
recorded, so it cannot be told from a parameter list. -/
def directive (st : PPState) (name : String) (args : List PPToken) : Option PPState :=
  if name = "ifndef" then openIfdef false st args
  else if name = "ifdef" then openIfdef true st args
  else if name = "if" then
    if st.isActive then none
    else some { st with stack := ⟨false, false, false, false⟩ :: st.stack }
  else if name = "elif" then
    match st.stack with
    | [] => none
    | c :: rest =>
      if c.seenElse then none
      else if !c.parent || c.taken then some { st with stack := { c with active := false } :: rest }
      else none
  else if name = "else" then
    match st.stack with
    | [] => none
    | c :: rest =>
      if c.seenElse then none
      else some { st with stack := ⟨c.parent && !c.taken, c.parent, true, true⟩ :: rest }
  else if name = "endif" then
    match st.stack with
    | [] => none
    | _ :: rest => some { st with stack := rest }
  else if !st.isActive then some st
  else if name = "define" then
    match args with
    | [.ident n] => some { st with env := st.env.define n ⟨none, []⟩ }
    | .ident n :: .punct c :: body =>
      if c = '(' then none
      else some { st with env := st.env.define n ⟨none, .punct c :: body⟩ }
    | .ident n :: body => some { st with env := st.env.define n ⟨none, body⟩ }
    | _ => none
  else if name = "undef" then
    match args with
    | [.ident n] => some { st with env := st.env.undef n }
    | _ => none
  else none

/-- Execute one logical line. Text of a processed group is macro-expanded by
`expand` and emitted; a line without tokens emits nothing. -/
def step (expand : MacroEnv → List PPToken → List PPToken) (st : PPState) :
    Line → Option PPState
  | .text [] => some st
  | .text (t :: ts) =>
    if st.isActive then some { st with out := st.out ++ expand st.env (t :: ts) }
    else some st
  | .directive name args => directive st name args
  | .null => some st
  | .nonDirective _ => if st.isActive then none else some st

/-- Execute the lines of a file in order. -/
def runLines (expand : MacroEnv → List PPToken → List PPToken) :
    PPState → List Line → Option PPState
  | st, [] => some st
  | st, l :: ls =>
    match step expand st l with
    | none => none
    | some st1 => runLines expand st1 ls

/-- Preprocess one file in environment `env`: the tokens it emits and the
environment it leaves, or `none` when the file is ill-formed or uses a
construct outside the supported fragment. Every `#if`-section must be closed
at the end of the file. -/
def preprocess (expand : MacroEnv → List PPToken → List PPToken) (env : MacroEnv)
    (src : List Char) : Option (List PPToken × MacroEnv) :=
  match parseFile src with
  | none => none
  | some lines =>
    match runLines expand ⟨env, [], []⟩ lines with
    | none => none
    | some st => if st.stack.isEmpty then some (st.out, st.env) else none

/-- Preprocess several files one after the other, as a translation unit that
includes them in a row does: each starts in the environment the previous one
left, and the emitted tokens are concatenated. -/
def preprocessAll (expand : MacroEnv → List PPToken → List PPToken) :
    MacroEnv → List (List Char) → Option (List PPToken × MacroEnv)
  | env, [] => some ([], env)
  | env, src :: rest =>
    match preprocess expand env src with
    | none => none
    | some (out, env1) =>
      match preprocessAll expand env1 rest with
      | none => none
      | some (out2, env2) => some (out ++ out2, env2)

/-- The definition `#define GCD_h` gives: object-like, empty replacement. -/
def emptyDef : MacroDef := ⟨none, []⟩

/-! ## The logical lines of the header -/

/-- The lines phases 2 and 3 make of `GCD.h`: eight lines without tokens
(seven `//` comments and a blank line), the two directives, three lines
without tokens (a blank line, the block comment, a blank line), `#endif`. -/
def GCD_h_lines : List Line :=
  [ .text [], .text [], .text [], .text [], .text [], .text [], .text [], .text []
  , .directive "ifndef" [.ident "GCD_h"]
  , .directive "define" [.ident "GCD_h"]
  , .text [], .text [], .text []
  , .directive "endif" [] ]

/-- Macro expansion that leaves every token as it is. -/
def noExpand : MacroEnv → List PPToken → List PPToken := fun _ ts => ts

/-- An environment in which `GCD_h` is undefined and another macro, `DEBUG`,
is defined as `1`. -/
def freshEnv : MacroEnv :=
  fun n => if n = "DEBUG" then some ⟨none, [.number "1"]⟩ else none

/-- An environment in which `GCD_h` is already defined, as a function-like
macro `GCD_h(x)` with replacement `x`. -/
def guardedEnv : MacroEnv :=
  fun n => if n = "GCD_h" then some ⟨some ["x"], [.ident "x"]⟩ else none

/-! ## Theorems -/

/-- Phases 2 and 3 on the text of the header give exactly `GCD_h_lines`. -/
theorem parseFile_GCD_h : parseFile GCD_h_source = some GCD_h_lines := by
  decide!

/-- First inclusion: with `GCD_h` undefined the guard is entered and the only
effect is the definition of `GCD_h`. -/
theorem preprocess_GCD_h_undefined (expand : MacroEnv → List PPToken → List PPToken)
    (env : MacroEnv) (h : env "GCD_h" = none) :
    preprocess expand env GCD_h_source = some ([], env.define "GCD_h" emptyDef) := by
  simp [preprocess, parseFile_GCD_h, GCD_h_lines, runLines, step, directive, openIfdef,
    PPState.isActive, h, emptyDef]

/-- Later inclusion: with `GCD_h` defined the guarded group is skipped. -/
theorem preprocess_GCD_h_defined (expand : MacroEnv → List PPToken → List PPToken)
    (env : MacroEnv) (m : MacroDef) (h : env "GCD_h" = some m) :
    preprocess expand env GCD_h_source = some ([], env) := by
  simp [preprocess, parseFile_GCD_h, GCD_h_lines, runLines, step, directive, openIfdef,
    PPState.isActive, h]

/-- C1: in every macro environment where `GCD_h` is not defined, and for
every macro-expansion function, preprocessing `GCD.h` succeeds, emits no
token, and leaves an environment in which `GCD_h` is defined as an
object-like macro with an empty replacement list and every other identifier
has the definition (or none) it had before. Moreover no line of the header
other than the three directives carries a token. -/
theorem GCD_h_first_inclusion (expand : MacroEnv → List PPToken → List PPToken)
    (env : MacroEnv) (h : env "GCD_h" = none) :
    (∃ env1, preprocess expand env GCD_h_source = some ([], env1) ∧
      env1 "GCD_h" = some ⟨none, []⟩ ∧
      ∀ n, n ≠ "GCD_h" → env1 n = env n) ∧
    (∃ lines, parseFile GCD_h_source = some lines ∧
      ∀ ts, Line.text ts ∈ lines → ts = []) := by
  refine ⟨⟨env.define "GCD_h" emptyDef, preprocess_GCD_h_undefined expand env h, ?_, ?_⟩,
    GCD_h_lines, parseFile_GCD_h, ?_⟩
  · simp [MacroEnv.define, emptyDef]
  · intro n hn
    simp [MacroEnv.define, hn]
  · intro ts hts
    simp [GCD_h_lines] at hts
    exact hts

/-- Witness of C1 at `freshEnv`, with tokens emitted unexpanded. -/
theorem GCD_h_first_inclusion_witness :
    freshEnv "GCD_h" = none ∧
    ((∃ env1, preprocess noExpand freshEnv GCD_h_source = some ([], env1) ∧
      env1 "GCD_h" = some ⟨none, []⟩ ∧
      ∀ n, n ≠ "GCD_h" → env1 n = freshEnv n) ∧
    (∃ lines, parseFile GCD_h_source = some lines ∧
      ∀ ts, Line.text ts ∈ lines → ts = [])) :=
  ⟨by decide, GCD_h_first_inclusion noExpand freshEnv (by decide)⟩

/-- C2: for every macro environment and every macro-expansion function,
preprocessing `GCD.h` succeeds, and preprocessing it twice in a row gives the
same emitted tokens and the same final environment as preprocessing it once;
when `GCD_h` is defined on entry, the header emits no token and the final
environment is the initial one. -/
theorem GCD_h_idempotent (expand : MacroEnv → List PPToken → List PPToken)
    (env : MacroEnv) :
    (∃ r, preprocess expand env GCD_h_source = some r) ∧
    preprocessAll expand env [GCD_h_source, GCD_h_source] =
      preprocess expand env GCD_h_source ∧
    (env "GCD_h" ≠ none → preprocess expand env GCD_h_source = some ([], env)) := by
  cases h : env "GCD_h" with
  | none =>
    have h1 := preprocess_GCD_h_undefined expand env h
    have h2 := preprocess_GCD_h_defined expand (env.define "GCD_h" emptyDef) emptyDef
      (by simp [MacroEnv.define])
    refine ⟨⟨_, h1⟩, ?_, fun hne => absurd rfl hne⟩
    simp [preprocessAll, h1, h2]
  | some m =>
    have h1 := preprocess_GCD_h_defined expand env m h
    refine ⟨⟨_, h1⟩, ?_, fun _ => h1⟩
    simp [preprocessAll, h1]

/-- Witness of C2 at `guardedEnv`, where `GCD_h` is defined on entry. -/
theorem GCD_h_idempotent_witness :
    guardedEnv "GCD_h" ≠ none ∧
    preprocessAll noExpand guardedEnv [GCD_h_source, GCD_h_source] =
      preprocess noExpand guardedEnv GCD_h_source ∧
    preprocess noExpand guardedEnv GCD_h_source = some ([], guardedEnv) :=
  ⟨by decide, (GCD_h_idempotent noExpand guardedEnv).2.1,
    (GCD_h_idempotent noExpand guardedEnv).2.2 (by decide)⟩

end GCD
